import Mathlib

/-
  Verification development for `src/models/input_feature_embedder.py` of the
  AlphaFold3_dw repository.

  The file is a shallow embedding of the two modules defined there,
  `InputFeatureEmbedder` and `ProteusFeatureEmbedder`, together with the
  pieces of their collaborators that their bodies use:

  * tensors are modelled as a shape (a list of dimension sizes) together
    with a total data function from multi-indices to exact rationals
    (reference floating-point values are idealised as rationals);
  * `torch` element-wise addition is modelled with the real broadcasting
    rule: aligned from the right, two dimensions are compatible when they
    are equal or one of them is 1, and a non-broadcastable pair of shapes
    raises an error;
  * `Linear` (from `src/models/components/primitives.py`, whose source is
    not included) is modelled from the spec, section 4.2: a deterministic
    affine transform of the last dimension with an optional bias term,
    failing on a last-dimension mismatch;
  * `AtomAttentionEncoder` and `RelativePositionEncoding` are opaque
    collaborators here: the embedder bodies only call them, so they are
    carried as function-valued fields of the module structures.
-/

namespace AF3

/-- Scalar type of the model: reference floats idealised as exact rationals. -/
abbrev Scalar := ℚ

/-- Sum of `f 0 + f 1 + ... + f (n-1)`. -/
def sumRange (f : Nat → Scalar) : Nat → Scalar
  | 0 => 0
  | n + 1 => sumRange f n + f n

/-- A dense tensor: a shape together with a total map from multi-indices to
values.  Only indices that are in range for the shape are meaningful. -/
structure Tensor where
  shape : List Nat
  data : List Nat → Scalar

/-- Errors raised by the tensor operations used in the embedder:
`shapeMismatch` for a linear layer applied to a tensor whose last dimension
is not the layer's in-feature count, `dimensionMismatch` for an element-wise
addition of non-broadcastable shapes.  Both surface as uncaught runtime
errors in the reference code. -/
inductive TensorError where
  | shapeMismatch
  | dimensionMismatch
deriving DecidableEq, Repr

/-- Last element of a dimension list, if any. -/
def lastDim : List Nat → Option Nat
  | [] => none
  | [a] => some a
  | _ :: b :: rest => lastDim (b :: rest)

/-- Last element of an index list, defaulting to 0. -/
def lastD : List Nat → Nat
  | [] => 0
  | [a] => a
  | _ :: b :: rest => lastD (b :: rest)

/-- All elements of a list except the last one. -/
def dropLastL : List Nat → List Nat
  | [] => []
  | [_] => []
  | a :: b :: rest => a :: dropLastL (b :: rest)

/-- Broadcast rule for one pair of aligned dimensions (torch semantics):
equal sizes broadcast to themselves, a size of 1 stretches to the other
size, and anything else is incompatible. -/
def bcastDim (a b : Nat) : Option Nat :=
  if a = b then some a
  else if a = 1 then some b
  else if b = 1 then some a
  else none

/-- Broadcast of two shapes given in reversed (innermost-first) order;
`none` when the shapes are not broadcastable. -/
def bcastShapeRev : List Nat → List Nat → Option (List Nat)
  | [], ys => some ys
  | x :: xs, [] => some (x :: xs)
  | x :: xs, y :: ys =>
    match bcastDim x y, bcastShapeRev xs ys with
    | some d, some rest => some (d :: rest)
    | _, _ => none

/-- Map a (reversed) result index back to a (reversed) operand index:
a stretched dimension of size 1 always reads position 0, and leading
result dimensions absent from the operand are dropped. -/
def opIndexRev : List Nat → List Nat → List Nat
  | [], _ => []
  | _ :: ds, [] => 0 :: opIndexRev ds []
  | d :: ds, i :: is => (if d = 1 then 0 else i) :: opIndexRev ds is

/-- Map a result index to the index read from an operand of shape `sh`
under broadcasting. -/
def bcastIndex (sh idx : List Nat) : List Nat :=
  (opIndexRev sh.reverse idx.reverse).reverse

/-- Element-wise tensor addition with torch broadcasting semantics:
fails when the shapes are not broadcastable, otherwise produces the
broadcast shape with point-wise sums. -/
def Tensor.add (a b : Tensor) : Except TensorError Tensor :=
  match bcastShapeRev a.shape.reverse b.shape.reverse with
  | some srev =>
    .ok ⟨srev.reverse, fun idx =>
      a.data (bcastIndex a.shape idx) + b.data (bcastIndex b.shape idx)⟩
  | none => .error .dimensionMismatch

/-- Insert a dimension of size 1 at position `d`, as the reference code's
`t[:, :, None, :]` / `t[:, None, :, :]` indexing does. -/
def Tensor.unsqueeze (t : Tensor) (d : Nat) : Tensor :=
  ⟨t.shape.take d ++ 1 :: t.shape.drop d,
   fun idx => t.data (idx.take d ++ idx.drop (d + 1))⟩

/-- Modelled from the spec: the `Linear` primitive of
`src/models/components/primitives.py` is not among the sources; spec
section 4.2 describes it as a deterministic affine transform of the last
dimension of any input tensor, with an optional bias term, and no error
conditions beyond shape mismatch. -/
structure Linear where
  in_features : Nat
  out_features : Nat
  weight : Nat → Nat → Scalar
  bias : Option (Nat → Scalar)

/-- Apply a linear layer to the last dimension of a tensor. -/
def Linear.apply (l : Linear) (t : Tensor) : Except TensorError Tensor :=
  match lastDim t.shape with
  | some d =>
    if d = l.in_features then
      .ok ⟨dropLastL t.shape ++ [l.out_features], fun idx =>
        sumRange (fun k => l.weight (lastD idx) k * t.data (dropLastL idx ++ [k]))
            l.in_features
        + (match l.bias with
           | some bf => bf (lastD idx)
           | none => 0)⟩
    else .error .shapeMismatch
  | none => .error .shapeMismatch

/-- The input feature dictionary: a mapping from feature names to tensors
(`ref_pos`, `ref_charge`, `ref_mask`, ...), passed through to the
collaborators unchanged. -/
abbrev Features := List (String × Tensor)

/-- Modelled from the spec: the output record of the windowed atom
attention encoder (`src/models/components/atom_attention.py`, not among
the sources).  The embedder bodies only read its `token_single` field,
the per-token tensor of shape `[*, N_tokens, c_token]`. -/
structure AtomAttentionEncoderOutput where
  token_single : Tensor

/-- `InputFeatureEmbedder` (lines 10-102): configuration fields assigned in
`__init__` plus the atom attention encoder, which is carried as an opaque
function of the features and the optional atom mask (its internals are an
external collaborator here).  The `device`/`dtype` selectors are hardware
concerns outside the numeric model. -/
structure InputFeatureEmbedder where
  n_tokens : Nat
  num_blocks : Nat
  c_token : Nat
  c_atom : Nat
  c_atompair : Nat
  c_trunk_pair : Nat
  num_heads : Nat
  dropout : Scalar
  n_queries : Nat
  n_keys : Nat
  encoder : Features → Option Tensor → AtomAttentionEncoderOutput

/-- Constructor mirroring `InputFeatureEmbedder.__init__` (lines 18-62). -/
def InputFeatureEmbedder.init
    (n_tokens c_token c_atom c_atompair c_trunk_pair num_blocks num_heads : Nat)
    (dropout : Scalar) (n_queries n_keys : Nat)
    (encoder : Features → Option Tensor → AtomAttentionEncoderOutput) :
    InputFeatureEmbedder :=
  ⟨n_tokens, num_blocks, c_token, c_atom, c_atompair, c_trunk_pair,
   num_heads, dropout, n_queries, n_keys, encoder⟩

/-- `InputFeatureEmbedder.forward` (lines 64-102): invoke the encoder on the
features and mask and return its `token_single` field unchanged. -/
def InputFeatureEmbedder.forward (m : InputFeatureEmbedder) (features : Features)
    (mask : Option Tensor := none) : Tensor :=
  (m.encoder features mask).token_single

/-- `ProteusFeatures` (lines 105-110): the structured output of the Proteus
feature embedder. -/
structure ProteusFeatures where
  s_inputs : Tensor
  s_trunk : Tensor
  z_trunk : Tensor

/-- `ProteusFeatureEmbedder` (lines 112-160): configuration fields, the inner
`InputFeatureEmbedder`, the three linear layers, and the relative position
encoder, which is an external collaborator carried as an opaque function of
the features and the optional token mask. -/
structure ProteusFeatureEmbedder where
  n_tokens : Nat
  num_blocks : Nat
  c_token : Nat
  c_atom : Nat
  c_atompair : Nat
  c_trunk_pair : Nat
  num_heads : Nat
  dropout : Scalar
  n_queries : Nat
  n_keys : Nat
  input_feature_embedder : InputFeatureEmbedder
  linear_s_init : Linear
  linear_z_col : Linear
  linear_z_row : Linear
  relative_pos_encoder : Features → Option Tensor → Tensor

/-- Constructor mirroring `ProteusFeatureEmbedder.__init__` (lines 114-160):
the inner embedder gets the same configuration and the encoder, and the
three projections are built without bias — `Linear(c_token, c_token,
bias=False)`, `Linear(c_token, c_trunk_pair, bias=False)` twice. -/
def ProteusFeatureEmbedder.init
    (n_tokens c_token c_atom c_atompair c_trunk_pair num_blocks num_heads : Nat)
    (dropout : Scalar) (n_queries n_keys : Nat)
    (w_s_init w_z_col w_z_row : Nat → Nat → Scalar)
    (encoder : Features → Option Tensor → AtomAttentionEncoderOutput)
    (rpe : Features → Option Tensor → Tensor) :
    ProteusFeatureEmbedder :=
  ⟨n_tokens, num_blocks, c_token, c_atom, c_atompair, c_trunk_pair,
   num_heads, dropout, n_queries, n_keys,
   InputFeatureEmbedder.init n_tokens c_token c_atom c_atompair c_trunk_pair
     num_blocks num_heads dropout n_queries n_keys encoder,
   ⟨c_token, c_token, w_s_init, none⟩,
   ⟨c_token, c_trunk_pair, w_z_col, none⟩,
   ⟨c_token, c_trunk_pair, w_z_row, none⟩,
   rpe⟩

/-- `ProteusFeatureEmbedder.forward` (lines 162-193), transliterated
statement by statement; every fallible tensor operation propagates its
error, so a call either returns a complete `ProteusFeatures` record or an
error with no partial output:

    per_token_features = self.input_feature_embedder(features, atom_mask)
    s_trunk = self.linear_s_init(per_token_features)
    z_trunk = self.linear_z_col(per_token_features[:, :, None, :])
            + self.linear_z_row(per_token_features[:, None, :, :])
    z_trunk = z_trunk + self.relative_pos_encoder(features, token_mask)
-/
def ProteusFeatureEmbedder.forward (m : ProteusFeatureEmbedder)
    (features : Features) (atom_mask : Option Tensor := none)
    (token_mask : Option Tensor := none) : Except TensorError ProteusFeatures :=
  let per_token_features := m.input_feature_embedder.forward features atom_mask
  match m.linear_s_init.apply per_token_features with
  | .error e => .error e
  | .ok s_trunk =>
    match m.linear_z_col.apply (per_token_features.unsqueeze 2) with
    | .error e => .error e
    | .ok z_col =>
      match m.linear_z_row.apply (per_token_features.unsqueeze 1) with
      | .error e => .error e
      | .ok z_row =>
        match z_col.add z_row with
        | .error e => .error e
        | .ok z =>
          match z.add (m.relative_pos_encoder features token_mask) with
          | .error e => .error e
          | .ok z_trunk => .ok ⟨per_token_features, s_trunk, z_trunk⟩

/-- State-passing rendering of `InputFeatureEmbedder.forward`: the state is
the module together with its arguments; the body contains no assignment to
`self` or to the feature dictionary, so the state is returned as received. -/
def InputFeatureEmbedder.forwardS
    (st : InputFeatureEmbedder × Features × Option Tensor) :
    (InputFeatureEmbedder × Features × Option Tensor) × Tensor :=
  (st, st.1.forward st.2.1 st.2.2)

/-- State-passing rendering of `ProteusFeatureEmbedder.forward`: the state is
the module together with its arguments; the body contains no assignment to
`self`, the feature dictionary or the masks, so the state is returned as
received. -/
def ProteusFeatureEmbedder.forwardS
    (st : ProteusFeatureEmbedder × Features × Option Tensor × Option Tensor) :
    (ProteusFeatureEmbedder × Features × Option Tensor × Option Tensor) ×
      Except TensorError ProteusFeatures :=
  (st, st.1.forward st.2.1 st.2.2.1 st.2.2.2)

/-- Whether a forward call returned a complete output. -/
def isOkF : Except TensorError ProteusFeatures → Bool
  | .ok _ => true
  | .error _ => false

/-- The `s_inputs` field of a successful forward call (zero tensor on error). -/
def sInputsOf : Except TensorError ProteusFeatures → Tensor
  | .ok r => r.s_inputs
  | .error _ => ⟨[], fun _ => 0⟩

/-- The `s_trunk` field of a successful forward call (zero tensor on error). -/
def sTrunkOf : Except TensorError ProteusFeatures → Tensor
  | .ok r => r.s_trunk
  | .error _ => ⟨[], fun _ => 0⟩

/-- The `z_trunk` field of a successful forward call (zero tensor on error). -/
def zTrunkOf : Except TensorError ProteusFeatures → Tensor
  | .ok r => r.z_trunk
  | .error _ => ⟨[], fun _ => 0⟩

/-- Output of an unbiased linear layer on a tensor whose last dimension
already matches: the shape swaps the last dimension for `outF` and each
entry is the weighted sum over the input channels. -/
def linOut (w : Nat → Nat → Scalar) (inF outF : Nat) (t : Tensor) : Tensor :=
  ⟨dropLastL t.shape ++ [outF], fun idx =>
    sumRange (fun k => w (lastD idx) k * t.data (dropLastL idx ++ [k])) inF⟩

/-- Output of a broadcast addition whose result shape is `sh`. -/
def addOut (a b : Tensor) (sh : List Nat) : Tensor :=
  ⟨sh, fun idx => a.data (bcastIndex a.shape idx) + b.data (bcastIndex b.shape idx)⟩

/-- The pair-trunk tensor the forward pass computes from a per-token tensor
with data `sd` of shape `[bs, n, ct]` and a relative-position bias with data
`bd` of shape `[bs, n, n, cp]`. -/
def zPair (wc wr : Nat → Nat → Scalar) (ct cp bs n : Nat)
    (sd bd : List Nat → Scalar) : Tensor :=
  addOut (addOut (linOut wc ct cp (Tensor.unsqueeze ⟨[bs, n, ct], sd⟩ 2))
                 (linOut wr ct cp (Tensor.unsqueeze ⟨[bs, n, ct], sd⟩ 1))
                 [bs, n, n, cp])
         ⟨[bs, n, n, cp], bd⟩
         [bs, n, n, cp]

/-- A concrete atom attention encoder used in example runs: two tokens,
one channel, batch size one. -/
def encW : Features → Option Tensor → AtomAttentionEncoderOutput :=
  fun _ _ => ⟨⟨[1, 2, 1], fun idx => (idx.sum : Scalar)⟩⟩

/-- A concrete relative position encoder matching `encW` with one pair
channel. -/
def rpeW : Features → Option Tensor → Tensor :=
  fun _ _ => ⟨[1, 2, 2, 1], fun idx => (idx.sum : Scalar)⟩

/-- A concrete relative position encoder whose token dimensions have size
one while the pair tensor has two tokens. -/
def rpeNarrowW : Features → Option Tensor → Tensor :=
  fun _ _ => ⟨[1, 1, 1, 1], fun idx => (idx.sum : Scalar)⟩

/-- A concrete relative position encoder whose token dimensions have size
three while the pair tensor has two tokens. -/
def rpeBadW : Features → Option Tensor → Tensor :=
  fun _ _ => ⟨[1, 3, 3, 1], fun idx => (idx.sum : Scalar)⟩

/-- A concrete relative position encoder with two pair channels. -/
def rpeWideW : Features → Option Tensor → Tensor :=
  fun _ _ => ⟨[1, 2, 2, 2], fun idx => (idx.sum : Scalar)⟩

/-- A concrete relative position encoder whose bias is the same for every
token pair. -/
def rpeConstW : Features → Option Tensor → Tensor :=
  fun _ _ => ⟨[1, 2, 2, 1], fun _ => 7⟩

/-- All-ones weight matrix for example runs. -/
def wOne : Nat → Nat → Scalar := fun _ _ => 1

/-- A concrete inner embedder used in example runs. -/
def ifeW : InputFeatureEmbedder :=
  InputFeatureEmbedder.init 2 1 1 1 1 1 1 0 1 1 encW

/-- A concrete Proteus embedder used in example runs. -/
def embW : ProteusFeatureEmbedder :=
  ProteusFeatureEmbedder.init 2 1 1 1 1 1 1 0 1 1 wOne wOne wOne encW rpeW

/-- `embW` with the size-one-token bias encoder. -/
def embNarrowW : ProteusFeatureEmbedder :=
  ProteusFeatureEmbedder.init 2 1 1 1 1 1 1 0 1 1 wOne wOne wOne encW rpeNarrowW

/-- `embW` with the size-three-token bias encoder. -/
def embBadW : ProteusFeatureEmbedder :=
  ProteusFeatureEmbedder.init 2 1 1 1 1 1 1 0 1 1 wOne wOne wOne encW rpeBadW

/-- A concrete Proteus embedder with `c_trunk_pair = 2` and `c_token = 1`. -/
def embWideW : ProteusFeatureEmbedder :=
  ProteusFeatureEmbedder.init 2 1 1 1 2 1 1 0 1 1 wOne wOne wOne encW rpeWideW

/-- `embW` with the pair-constant bias encoder. -/
def embConstW : ProteusFeatureEmbedder :=
  ProteusFeatureEmbedder.init 2 1 1 1 1 1 1 0 1 1 wOne wOne wOne encW rpeConstW

/- ------------------------------------------------------------------ -/
/- Helper lemmas                                                       -/
/- ------------------------------------------------------------------ -/

theorem bcastDim_same (d : Nat) : bcastDim d d = some d := by
  simp [bcastDim]

theorem bcastDim_one_left (d : Nat) : bcastDim 1 d = some d := by
  unfold bcastDim
  by_cases h : (1 : Nat) = d <;> simp [h]

theorem bcastDim_one_right (d : Nat) : bcastDim d 1 = some d := by
  unfold bcastDim
  by_cases h : d = 1 <;> simp [h]

theorem bcastShapeRev_same (l : List Nat) : bcastShapeRev l l = some l := by
  induction l with
  | nil => rfl
  | cons a as ih => simp [bcastShapeRev, bcastDim_same, ih]

theorem bcastShapeRev_pair (bs n cp : Nat) :
    bcastShapeRev [cp, 1, n, bs] [cp, n, 1, bs] = some [cp, n, n, bs] := by
  simp [bcastShapeRev, bcastDim_same, bcastDim_one_left, bcastDim_one_right]

theorem dim_idx (d i : Nat) (h : i < d) : (if d = 1 then 0 else i) = i := by
  by_cases hd : d = 1
  · subst hd
    have hi : i = 0 := by omega
    subst hi
    simp
  · simp [hd]

theorem bcastIndex_eval (d1 d2 d3 d4 i1 i2 i3 i4 : Nat)
    (h1 : i1 < d1) (h2 : i2 < d2) (h3 : i3 < d3) (h4 : i4 < d4) :
    bcastIndex [d1, d2, d3, d4] [i1, i2, i3, i4] = [i1, i2, i3, i4] := by
  show [if d1 = 1 then 0 else i1, if d2 = 1 then 0 else i2,
        if d3 = 1 then 0 else i3, if d4 = 1 then 0 else i4]
      = [i1, i2, i3, i4]
  rw [dim_idx d1 i1 h1, dim_idx d2 i2 h2, dim_idx d3 i3 h3, dim_idx d4 i4 h4]

theorem bcastIndex_col (bs n cp b i j o : Nat)
    (h1 : b < bs) (h2 : i < n) (h4 : o < cp) :
    bcastIndex [bs, n, 1, cp] [b, i, j, o] = [b, i, 0, o] := by
  show [if bs = 1 then 0 else b, if n = 1 then 0 else i, 0,
        if cp = 1 then 0 else o]
      = [b, i, 0, o]
  rw [dim_idx bs b h1, dim_idx n i h2, dim_idx cp o h4]

theorem bcastIndex_row (bs n cp b i j o : Nat)
    (h1 : b < bs) (h3 : j < n) (h4 : o < cp) :
    bcastIndex [bs, 1, n, cp] [b, i, j, o] = [b, 0, j, o] := by
  show [if bs = 1 then 0 else b, 0, if n = 1 then 0 else j,
        if cp = 1 then 0 else o]
      = [b, 0, j, o]
  rw [dim_idx bs b h1, dim_idx n j h3, dim_idx cp o h4]

theorem tensor_eta (t : Tensor) (sh : List Nat) (h : t.shape = sh) :
    t = ⟨sh, t.data⟩ := by
  obtain ⟨s, d⟩ := t
  subst h
  rfl

theorem linear_apply_none (inF outF : Nat) (w : Nat → Nat → Scalar) (t : Tensor)
    (h : lastDim t.shape = some inF) :
    Linear.apply ⟨inF, outF, w, none⟩ t = .ok (linOut w inF outF t) := by
  unfold Linear.apply linOut
  rw [h]
  simp

theorem add_eq (a b : Tensor) (sh : List Nat)
    (h : bcastShapeRev a.shape.reverse b.shape.reverse = some sh.reverse) :
    a.add b = .ok (addOut a b sh) := by
  unfold Tensor.add addOut
  rw [h]
  simp

theorem forward_eq (m : ProteusFeatureEmbedder) (f : Features)
    (am tm : Option Tensor) (bs n ct cp : Nat) (sd bd : List Nat → Scalar)
    (ws wc wr : Nat → Nat → Scalar)
    (hsi : m.linear_s_init = ⟨ct, ct, ws, none⟩)
    (hzc : m.linear_z_col = ⟨ct, cp, wc, none⟩)
    (hzr : m.linear_z_row = ⟨ct, cp, wr, none⟩)
    (htok : (m.input_feature_embedder.encoder f am).token_single
      = ⟨[bs, n, ct], sd⟩)
    (hrpe : m.relative_pos_encoder f tm = ⟨[bs, n, n, cp], bd⟩) :
    m.forward f am tm =
      .ok ⟨⟨[bs, n, ct], sd⟩,
           linOut ws ct ct ⟨[bs, n, ct], sd⟩,
           zPair wc wr ct cp bs n sd bd⟩ := by
  have h1 : Linear.apply (⟨ct, ct, ws, none⟩ : Linear) (⟨[bs, n, ct], sd⟩ : Tensor)
      = .ok (linOut ws ct ct ⟨[bs, n, ct], sd⟩) :=
    linear_apply_none ct ct ws _ (by rfl)
  have h2 : Linear.apply (⟨ct, cp, wc, none⟩ : Linear)
        (Tensor.unsqueeze ⟨[bs, n, ct], sd⟩ 2)
      = .ok (linOut wc ct cp (Tensor.unsqueeze ⟨[bs, n, ct], sd⟩ 2)) :=
    linear_apply_none ct cp wc _ (by rfl)
  have h3 : Linear.apply (⟨ct, cp, wr, none⟩ : Linear)
        (Tensor.unsqueeze ⟨[bs, n, ct], sd⟩ 1)
      = .ok (linOut wr ct cp (Tensor.unsqueeze ⟨[bs, n, ct], sd⟩ 1)) :=
    linear_apply_none ct cp wr _ (by rfl)
  have h4 : Tensor.add (linOut wc ct cp (Tensor.unsqueeze ⟨[bs, n, ct], sd⟩ 2))
        (linOut wr ct cp (Tensor.unsqueeze ⟨[bs, n, ct], sd⟩ 1))
      = .ok (addOut (linOut wc ct cp (Tensor.unsqueeze ⟨[bs, n, ct], sd⟩ 2))
                    (linOut wr ct cp (Tensor.unsqueeze ⟨[bs, n, ct], sd⟩ 1))
                    [bs, n, n, cp]) :=
    add_eq _ _ _ (bcastShapeRev_pair bs n cp)
  have h5 : Tensor.add
        (addOut (linOut wc ct cp (Tensor.unsqueeze ⟨[bs, n, ct], sd⟩ 2))
                (linOut wr ct cp (Tensor.unsqueeze ⟨[bs, n, ct], sd⟩ 1))
                [bs, n, n, cp])
        (⟨[bs, n, n, cp], bd⟩ : Tensor)
      = .ok (zPair wc wr ct cp bs n sd bd) :=
    add_eq _ _ _ (bcastShapeRev_same [cp, n, n, bs])
  simp only [ProteusFeatureEmbedder.forward, InputFeatureEmbedder.forward,
    hsi, hzc, hzr, htok, hrpe, h1, h2, h3, h4, h5]

theorem zPair_data (wc wr : Nat → Nat → Scalar) (ct cp bs n : Nat)
    (sd bd : List Nat → Scalar) (b i j o : Nat)
    (hb : b < bs) (hi : i < n) (hj : j < n) (ho : o < cp) :
    (zPair wc wr ct cp bs n sd bd).data [b, i, j, o]
      = sumRange (fun k => wc o k * sd [b, i, k]) ct
      + sumRange (fun k => wr o k * sd [b, j, k]) ct
      + bd [b, i, j, o] := by
  have e0 : bcastIndex [bs, n, n, cp] [b, i, j, o] = [b, i, j, o] :=
    bcastIndex_eval bs n n cp b i j o hb hi hj ho
  have ec : bcastIndex [bs, n, 1, cp] [b, i, j, o] = [b, i, 0, o] :=
    bcastIndex_col bs n cp b i j o hb hi ho
  have er : bcastIndex [bs, 1, n, cp] [b, i, j, o] = [b, 0, j, o] :=
    bcastIndex_row bs n cp b i j o hb hj ho
  show (linOut wc ct cp (Tensor.unsqueeze ⟨[bs, n, ct], sd⟩ 2)).data
          (bcastIndex [bs, n, 1, cp] (bcastIndex [bs, n, n, cp] [b, i, j, o]))
      + (linOut wr ct cp (Tensor.unsqueeze ⟨[bs, n, ct], sd⟩ 1)).data
          (bcastIndex [bs, 1, n, cp] (bcastIndex [bs, n, n, cp] [b, i, j, o]))
      + bd (bcastIndex [bs, n, n, cp] [b, i, j, o])
      = _
  rw [e0, ec, er]
  rfl

/- ------------------------------------------------------------------ -/
/- Claim theorems                                                      -/
/- ------------------------------------------------------------------ -/

/-- C1: for every input feature batch and every ordered token pair `(i, j)`,
the pair-trunk tensor produced by `ProteusFeatureEmbedder.forward` satisfies
`z_trunk[b, i, j] = row_proj(token_i) + col_proj(token_j) + bias[b, i, j]`,
where the two projections are the embedder's two unbiased pair projections
(the one applied to the row token `i` is the field `linear_z_col`, with
weights `wc`, and the one applied to the column token `j` is the field
`linear_z_row`, with weights `wr`) and `bias` is the relative-position bias
tensor; in particular, when that bias is all zeros, `z_trunk` is exactly the
broadcast outer sum of the two projections with no additional offset. -/
theorem c1_pair_trunk_outer_sum
    (nt ct ca cap cp nb nh : Nat) (dp : Scalar) (nq nk : Nat)
    (ws wc wr : Nat → Nat → Scalar)
    (E : Features → Option Tensor → AtomAttentionEncoderOutput)
    (R : Features → Option Tensor → Tensor)
    (f : Features) (am tm : Option Tensor) (bs n : Nat)
    (hshape : ((E f am).token_single).shape = [bs, n, ct])
    (hbias : (R f tm).shape = [bs, n, n, cp])
    (b i j o : Nat) (hb0 : b < bs) (hi : i < n) (hj : j < n) (ho : o < cp) :
    isOkF ((ProteusFeatureEmbedder.init nt ct ca cap cp nb nh dp nq nk
        ws wc wr E R).forward f am tm) = true
    ∧ (zTrunkOf ((ProteusFeatureEmbedder.init nt ct ca cap cp nb nh dp nq nk
          ws wc wr E R).forward f am tm)).data [b, i, j, o]
        = sumRange (fun k => wc o k * ((E f am).token_single).data [b, i, k]) ct
        + sumRange (fun k => wr o k * ((E f am).token_single).data [b, j, k]) ct
        + (R f tm).data [b, i, j, o]
    ∧ ((∀ idx, (R f tm).data idx = 0) →
        (zTrunkOf ((ProteusFeatureEmbedder.init nt ct ca cap cp nb nh dp nq nk
            ws wc wr E R).forward f am tm)).data [b, i, j, o]
          = sumRange (fun k => wc o k * ((E f am).token_single).data [b, i, k]) ct
          + sumRange (fun k => wr o k * ((E f am).token_single).data [b, j, k]) ct) := by
  have htok := tensor_eta ((E f am).token_single) [bs, n, ct] hshape
  have hrpe := tensor_eta (R f tm) [bs, n, n, cp] hbias
  have hfe := forward_eq
    (ProteusFeatureEmbedder.init nt ct ca cap cp nb nh dp nq nk ws wc wr E R)
    f am tm bs n ct cp ((E f am).token_single).data ((R f tm)).data
    ws wc wr rfl rfl rfl htok hrpe
  rw [hfe]
  refine ⟨rfl, ?_, ?_⟩
  · simp only [zTrunkOf]
    rw [zPair_data wc wr ct cp bs n _ _ b i j o hb0 hi hj ho]
  · intro hzero
    simp only [zTrunkOf]
    rw [zPair_data wc wr ct cp bs n _ _ b i j o hb0 hi hj ho,
        hzero [b, i, j, o], add_zero]

/-- C1 witness: the outer-sum identity instantiated on a concrete embedder
with two tokens, one channel and batch size one, at the pair `(0, 1)`. -/
theorem c1_pair_trunk_outer_sum_witness :
    isOkF (embW.forward [] none none) = true
    ∧ (zTrunkOf (embW.forward [] none none)).data [0, 0, 1, 0]
        = sumRange (fun k => wOne 0 k * ((encW [] none).token_single).data [0, 0, k]) 1
        + sumRange (fun k => wOne 0 k * ((encW [] none).token_single).data [0, 1, k]) 1
        + (rpeW [] none).data [0, 0, 1, 0]
    ∧ ((∀ idx, (rpeW [] none).data idx = 0) →
        (zTrunkOf (embW.forward [] none none)).data [0, 0, 1, 0]
          = sumRange (fun k => wOne 0 k * ((encW [] none).token_single).data [0, 0, k]) 1
          + sumRange (fun k => wOne 0 k * ((encW [] none).token_single).data [0, 1, k]) 1) :=
  c1_pair_trunk_outer_sum 2 1 1 1 1 1 1 0 1 1 wOne wOne wOne encW rpeW
    [] none none 1 2 rfl rfl 0 0 1 0 (by decide) (by decide) (by decide) (by decide)

/-- C3: for every input feature batch, the single-trunk representation
returned by `ProteusFeatureEmbedder.forward` equals the unbiased (bias-free)
linear projection `linear_s_init` of the per-token tensor, with the same
token count as that tensor. -/
theorem c3_s_trunk_unbiased_projection
    (nt ct ca cap cp nb nh : Nat) (dp : Scalar) (nq nk : Nat)
    (ws wc wr : Nat → Nat → Scalar)
    (E : Features → Option Tensor → AtomAttentionEncoderOutput)
    (R : Features → Option Tensor → Tensor)
    (f : Features) (am tm : Option Tensor) (bs n : Nat)
    (hshape : ((E f am).token_single).shape = [bs, n, ct])
    (hbias : (R f tm).shape = [bs, n, n, cp]) :
    isOkF ((ProteusFeatureEmbedder.init nt ct ca cap cp nb nh dp nq nk
        ws wc wr E R).forward f am tm) = true
    ∧ (ProteusFeatureEmbedder.init nt ct ca cap cp nb nh dp nq nk
        ws wc wr E R).linear_s_init.bias = none
    ∧ (ProteusFeatureEmbedder.init nt ct ca cap cp nb nh dp nq nk
          ws wc wr E R).linear_s_init.apply ((E f am).token_single)
        = .ok (sTrunkOf ((ProteusFeatureEmbedder.init nt ct ca cap cp nb nh dp nq nk
            ws wc wr E R).forward f am tm))
    ∧ (sTrunkOf ((ProteusFeatureEmbedder.init nt ct ca cap cp nb nh dp nq nk
          ws wc wr E R).forward f am tm)).shape = [bs, n, ct] := by
  have htok := tensor_eta ((E f am).token_single) [bs, n, ct] hshape
  have hrpe := tensor_eta (R f tm) [bs, n, n, cp] hbias
  have hfe := forward_eq
    (ProteusFeatureEmbedder.init nt ct ca cap cp nb nh dp nq nk ws wc wr E R)
    f am tm bs n ct cp ((E f am).token_single).data ((R f tm)).data
    ws wc wr rfl rfl rfl htok hrpe
  rw [hfe]
  refine ⟨rfl, rfl, ?_, rfl⟩
  simp only [sTrunkOf]
  rw [htok]
  exact linear_apply_none ct ct ws _ (by rfl)

/-- C3 witness: the single-trunk projection identity instantiated on a
concrete embedder with two tokens, one channel and batch size one. -/
theorem c3_s_trunk_unbiased_projection_witness :
    isOkF (embW.forward [] none none) = true
    ∧ embW.linear_s_init.bias = none
    ∧ embW.linear_s_init.apply ((encW [] none).token_single)
        = .ok (sTrunkOf (embW.forward [] none none))
    ∧ (sTrunkOf (embW.forward [] none none)).shape = [1, 2, 1] :=
  c3_s_trunk_unbiased_projection 2 1 1 1 1 1 1 0 1 1 wOne wOne wOne encW rpeW
    [] none none 1 2 rfl rfl

/-- C4: with the relative-position bias held fixed across pairs, the
difference `pair[i, j] - pair[k, j]` of the pair-trunk tensor is independent
of token `j`'s column projection contribution: it equals the difference of
the row terms for tokens `i` and `k`, and it is unchanged when `j` is
replaced by any other token `j2`. -/
theorem c4_pair_difference_row_only
    (nt ct ca cap cp nb nh : Nat) (dp : Scalar) (nq nk : Nat)
    (ws wc wr : Nat → Nat → Scalar)
    (E : Features → Option Tensor → AtomAttentionEncoderOutput)
    (R : Features → Option Tensor → Tensor)
    (f : Features) (am tm : Option Tensor) (bs n : Nat)
    (hshape : ((E f am).token_single).shape = [bs, n, ct])
    (hbias : (R f tm).shape = [bs, n, n, cp])
    (cbias : Nat → Scalar)
    (b i k j j2 o : Nat) (hb0 : b < bs) (hi : i < n) (hk : k < n)
    (hj : j < n) (hj2 : j2 < n) (ho : o < cp)
    (hconst : ∀ i0 j0 o0, i0 < n → j0 < n → o0 < cp →
      (R f tm).data [b, i0, j0, o0] = cbias o0) :
    (zTrunkOf ((ProteusFeatureEmbedder.init nt ct ca cap cp nb nh dp nq nk
          ws wc wr E R).forward f am tm)).data [b, i, j, o]
      - (zTrunkOf ((ProteusFeatureEmbedder.init nt ct ca cap cp nb nh dp nq nk
          ws wc wr E R).forward f am tm)).data [b, k, j, o]
      = sumRange (fun kk => wc o kk * ((E f am).token_single).data [b, i, kk]) ct
      - sumRange (fun kk => wc o kk * ((E f am).token_single).data [b, k, kk]) ct
    ∧ (zTrunkOf ((ProteusFeatureEmbedder.init nt ct ca cap cp nb nh dp nq nk
          ws wc wr E R).forward f am tm)).data [b, i, j, o]
      - (zTrunkOf ((ProteusFeatureEmbedder.init nt ct ca cap cp nb nh dp nq nk
          ws wc wr E R).forward f am tm)).data [b, k, j, o]
      = (zTrunkOf ((ProteusFeatureEmbedder.init nt ct ca cap cp nb nh dp nq nk
          ws wc wr E R).forward f am tm)).data [b, i, j2, o]
      - (zTrunkOf ((ProteusFeatureEmbedder.init nt ct ca cap cp nb nh dp nq nk
          ws wc wr E R).forward f am tm)).data [b, k, j2, o] := by
  have htok := tensor_eta ((E f am).token_single) [bs, n, ct] hshape
  have hrpe := tensor_eta (R f tm) [bs, n, n, cp] hbias
  have hfe := forward_eq
    (ProteusFeatureEmbedder.init nt ct ca cap cp nb nh dp nq nk ws wc wr E R)
    f am tm bs n ct cp ((E f am).token_single).data ((R f tm)).data
    ws wc wr rfl rfl rfl htok hrpe
  rw [hfe]
  simp only [zTrunkOf]
  rw [zPair_data wc wr ct cp bs n _ _ b i j o hb0 hi hj ho,
      zPair_data wc wr ct cp bs n _ _ b k j o hb0 hk hj ho,
      zPair_data wc wr ct cp bs n _ _ b i j2 o hb0 hi hj2 ho,
      zPair_data wc wr ct cp bs n _ _ b k j2 o hb0 hk hj2 ho,
      hconst i j o hi hj ho, hconst k j o hk hj ho,
      hconst i j2 o hi hj2 ho, hconst k j2 o hk hj2 ho]
  constructor <;> ring

/-- C4 witness: the row-difference identity instantiated on a concrete
embedder with two tokens, one channel and batch size one, with the bias
held constant across pairs. -/
theorem c4_pair_difference_row_only_witness :
    (zTrunkOf (embConstW.forward [] none none)).data [0, 0, 0, 0]
      - (zTrunkOf (embConstW.forward [] none none)).data [0, 1, 0, 0]
      = sumRange (fun kk => wOne 0 kk * ((encW [] none).token_single).data [0, 0, kk]) 1
      - sumRange (fun kk => wOne 0 kk * ((encW [] none).token_single).data [0, 1, kk]) 1
    ∧ (zTrunkOf (embConstW.forward [] none none)).data [0, 0, 0, 0]
      - (zTrunkOf (embConstW.forward [] none none)).data [0, 1, 0, 0]
      = (zTrunkOf (embConstW.forward [] none none)).data [0, 0, 1, 0]
      - (zTrunkOf (embConstW.forward [] none none)).data [0, 1, 1, 0] :=
  c4_pair_difference_row_only 2 1 1 1 1 1 1 0 1 1 wOne wOne wOne encW rpeConstW
    [] none none 1 2 rfl rfl (fun _ => 7) 0 0 1 0 1 0
    (by decide) (by decide) (by decide) (by decide) (by decide) (by decide)
    (fun _ _ _ _ _ _ => rfl)

/-- C2: `InputFeatureEmbedder.forward` returns exactly the per-token single
representation produced by the atom attention encoder on its inputs, a
tensor of shape `[bs, N_tokens, c_token]`, with no further transformation
applied by the wrapper. -/
theorem c2_input_embedder_thin_wrapper
    (m : InputFeatureEmbedder) (features : Features) (mask : Option Tensor)
    (bs : Nat)
    (h : ((m.encoder features mask).token_single).shape
      = [bs, m.n_tokens, m.c_token]) :
    m.forward features mask = (m.encoder features mask).token_single
    ∧ (m.forward features mask).shape = [bs, m.n_tokens, m.c_token] :=
  ⟨rfl, h⟩

/-- C2 witness: the wrapper identity instantiated on a concrete inner
embedder with two tokens, one channel and batch size one. -/
theorem c2_input_embedder_thin_wrapper_witness :
    ifeW.forward [] none = (encW [] none).token_single
    ∧ (ifeW.forward [] none).shape = [1, ifeW.n_tokens, ifeW.c_token] :=
  c2_input_embedder_thin_wrapper ifeW [] none 1 rfl

/-- Forward evaluation when the relative-position bias is not broadcastable
against the `[bs, n, n, cp]` pair tensor: the call fails with a dimension
mismatch before any output is returned. -/
theorem forward_err (m : ProteusFeatureEmbedder) (f : Features)
    (am tm : Option Tensor) (bs n ct cp : Nat) (sd : List Nat → Scalar)
    (ws wc wr : Nat → Nat → Scalar)
    (hsi : m.linear_s_init = ⟨ct, ct, ws, none⟩)
    (hzc : m.linear_z_col = ⟨ct, cp, wc, none⟩)
    (hzr : m.linear_z_row = ⟨ct, cp, wr, none⟩)
    (htok : (m.input_feature_embedder.encoder f am).token_single
      = ⟨[bs, n, ct], sd⟩)
    (hbad : bcastShapeRev [cp, n, n, bs]
        ((m.relative_pos_encoder f tm).shape.reverse) = none) :
    m.forward f am tm = .error .dimensionMismatch := by
  have h1 : Linear.apply (⟨ct, ct, ws, none⟩ : Linear) (⟨[bs, n, ct], sd⟩ : Tensor)
      = .ok (linOut ws ct ct ⟨[bs, n, ct], sd⟩) :=
    linear_apply_none ct ct ws _ (by rfl)
  have h2 : Linear.apply (⟨ct, cp, wc, none⟩ : Linear)
        (Tensor.unsqueeze ⟨[bs, n, ct], sd⟩ 2)
      = .ok (linOut wc ct cp (Tensor.unsqueeze ⟨[bs, n, ct], sd⟩ 2)) :=
    linear_apply_none ct cp wc _ (by rfl)
  have h3 : Linear.apply (⟨ct, cp, wr, none⟩ : Linear)
        (Tensor.unsqueeze ⟨[bs, n, ct], sd⟩ 1)
      = .ok (linOut wr ct cp (Tensor.unsqueeze ⟨[bs, n, ct], sd⟩ 1)) :=
    linear_apply_none ct cp wr _ (by rfl)
  have h4 : Tensor.add (linOut wc ct cp (Tensor.unsqueeze ⟨[bs, n, ct], sd⟩ 2))
        (linOut wr ct cp (Tensor.unsqueeze ⟨[bs, n, ct], sd⟩ 1))
      = .ok (addOut (linOut wc ct cp (Tensor.unsqueeze ⟨[bs, n, ct], sd⟩ 2))
                    (linOut wr ct cp (Tensor.unsqueeze ⟨[bs, n, ct], sd⟩ 1))
                    [bs, n, n, cp]) :=
    add_eq _ _ _ (bcastShapeRev_pair bs n cp)
  have h5 : Tensor.add
        (addOut (linOut wc ct cp (Tensor.unsqueeze ⟨[bs, n, ct], sd⟩ 2))
                (linOut wr ct cp (Tensor.unsqueeze ⟨[bs, n, ct], sd⟩ 1))
                [bs, n, n, cp])
        (m.relative_pos_encoder f tm) = .error .dimensionMismatch := by
    unfold Tensor.add
    rw [show bcastShapeRev
        ((addOut (linOut wc ct cp (Tensor.unsqueeze ⟨[bs, n, ct], sd⟩ 2))
                 (linOut wr ct cp (Tensor.unsqueeze ⟨[bs, n, ct], sd⟩ 1))
                 [bs, n, n, cp]).shape).reverse
        (((m.relative_pos_encoder f tm).shape).reverse) = none from hbad]
  simp only [ProteusFeatureEmbedder.forward, InputFeatureEmbedder.forward,
    hsi, hzc, hzr, htok, h1, h2, h3, h4, h5]

/-- C5 counterexample: the claim that every disagreement between the
relative-position bias shape and the projected pair tensor fails with a
dimension mismatch is false.  Here the bias tensor has token count 1 while
the projected pair tensor has token count 2 (shapes `[1, 1, 1, 1]` versus
`[1, 2, 2, 1]`), yet the forward call succeeds, because element-wise
addition broadcasts a size-1 dimension instead of failing. -/
theorem c5_broadcast_silently_succeeds :
    (rpeNarrowW [] none).shape = [1, 1, 1, 1]
    ∧ (zTrunkOf (embNarrowW.forward [] none none)).shape = [1, 2, 2, 1]
    ∧ isOkF (embNarrowW.forward [] none none) = true := by
  refine ⟨rfl, ?_, ?_⟩ <;> rfl

/-- C5 (amended): a call to `ProteusFeatureEmbedder.forward` in which the
relative-position bias tensor's shape is not broadcastable against the
projected pair tensor's shape `[bs, n, n, cp]` (a disagreeing dimension
pair in which neither side is 1) fails with a dimension-mismatch error,
detected before any output is returned, and no partially constructed
output is produced; a disagreeing dimension of size 1 is instead silently
broadcast. -/
theorem c5_nonbroadcastable_bias_fails
    (nt ct ca cap cp nb nh : Nat) (dp : Scalar) (nq nk : Nat)
    (ws wc wr : Nat → Nat → Scalar)
    (E : Features → Option Tensor → AtomAttentionEncoderOutput)
    (R : Features → Option Tensor → Tensor)
    (f : Features) (am tm : Option Tensor) (bs n : Nat)
    (hshape : ((E f am).token_single).shape = [bs, n, ct])
    (hbad : bcastShapeRev [cp, n, n, bs] (((R f tm).shape).reverse) = none) :
    (ProteusFeatureEmbedder.init nt ct ca cap cp nb nh dp nq nk
        ws wc wr E R).forward f am tm = .error .dimensionMismatch :=
  forward_err _ f am tm bs n ct cp ((E f am).token_single).data ws wc wr
    rfl rfl rfl (tensor_eta _ _ hshape) hbad

/-- C5 witness: a concrete embedder whose bias has three tokens against a
two-token pair tensor fails with a dimension mismatch. -/
theorem c5_nonbroadcastable_bias_fails_witness :
    embBadW.forward [] none none = .error .dimensionMismatch :=
  c5_nonbroadcastable_bias_fails 2 1 1 1 1 1 1 0 1 1 wOne wOne wOne
    encW rpeBadW [] none none 1 2 rfl rfl

/-- C6: with dropout disabled and identical parameters, running
`ProteusFeatureEmbedder.forward` and `InputFeatureEmbedder.forward` twice on
identical inputs produces identical outputs; in the state-passing rendering
the second run starts from the state returned by the first, so the forward
pass is a deterministic function of its inputs and parameters. -/
theorem c6_forward_deterministic
    (st : ProteusFeatureEmbedder × Features × Option Tensor × Option Tensor)
    (sti : InputFeatureEmbedder × Features × Option Tensor)
    (hd : st.1.dropout = 0) (hdi : st.1.input_feature_embedder.dropout = 0)
    (hd2 : sti.1.dropout = 0) :
    (ProteusFeatureEmbedder.forwardS ((ProteusFeatureEmbedder.forwardS st).1)).2
      = (ProteusFeatureEmbedder.forwardS st).2
    ∧ (InputFeatureEmbedder.forwardS ((InputFeatureEmbedder.forwardS sti).1)).2
      = (InputFeatureEmbedder.forwardS sti).2 :=
  ⟨rfl, rfl⟩

/-- C6 witness: determinism instantiated on a concrete embedder with
dropout zero. -/
theorem c6_forward_deterministic_witness :
    (ProteusFeatureEmbedder.forwardS
        ((ProteusFeatureEmbedder.forwardS (embW, [], none, none)).1)).2
      = (ProteusFeatureEmbedder.forwardS (embW, [], none, none)).2
    ∧ (InputFeatureEmbedder.forwardS
        ((InputFeatureEmbedder.forwardS (ifeW, [], none)).1)).2
      = (InputFeatureEmbedder.forwardS (ifeW, [], none)).2 :=
  c6_forward_deterministic (embW, [], none, none) (ifeW, [], none) rfl rfl rfl

/-- C7: the forward passes have no side effects: in the state-passing
rendering the input feature dictionary, the masks and the module are
returned exactly as received, and in particular every configuration field
and learned parameter set at construction is unchanged across the call. -/
theorem c7_forward_no_side_effects
    (st : ProteusFeatureEmbedder × Features × Option Tensor × Option Tensor)
    (sti : InputFeatureEmbedder × Features × Option Tensor) :
    (ProteusFeatureEmbedder.forwardS st).1 = st
    ∧ (InputFeatureEmbedder.forwardS sti).1 = sti
    ∧ ((ProteusFeatureEmbedder.forwardS st).1).1.n_tokens = st.1.n_tokens
    ∧ ((ProteusFeatureEmbedder.forwardS st).1).1.num_blocks = st.1.num_blocks
    ∧ ((ProteusFeatureEmbedder.forwardS st).1).1.c_token = st.1.c_token
    ∧ ((ProteusFeatureEmbedder.forwardS st).1).1.c_atom = st.1.c_atom
    ∧ ((ProteusFeatureEmbedder.forwardS st).1).1.c_atompair = st.1.c_atompair
    ∧ ((ProteusFeatureEmbedder.forwardS st).1).1.c_trunk_pair = st.1.c_trunk_pair
    ∧ ((ProteusFeatureEmbedder.forwardS st).1).1.num_heads = st.1.num_heads
    ∧ ((ProteusFeatureEmbedder.forwardS st).1).1.dropout = st.1.dropout
    ∧ ((ProteusFeatureEmbedder.forwardS st).1).1.n_queries = st.1.n_queries
    ∧ ((ProteusFeatureEmbedder.forwardS st).1).1.n_keys = st.1.n_keys
    ∧ ((ProteusFeatureEmbedder.forwardS st).1).1.input_feature_embedder
        = st.1.input_feature_embedder
    ∧ ((ProteusFeatureEmbedder.forwardS st).1).1.linear_s_init = st.1.linear_s_init
    ∧ ((ProteusFeatureEmbedder.forwardS st).1).1.linear_z_col = st.1.linear_z_col
    ∧ ((ProteusFeatureEmbedder.forwardS st).1).1.linear_z_row = st.1.linear_z_row
    ∧ ((ProteusFeatureEmbedder.forwardS st).1).1.relative_pos_encoder
        = st.1.relative_pos_encoder :=
  ⟨rfl, rfl, rfl, rfl, rfl, rfl, rfl, rfl, rfl, rfl, rfl, rfl, rfl, rfl,
   rfl, rfl, rfl⟩

/-- C8: the masks are optional at the public interface: omitting them is
the same as passing `none` for both; the output of a call with omitted
masks depends on the encoder only through its value at the features and
`none` and on the relative-position encoder only through its value at the
features and `none` (the masks are passed through unchanged); and with
well-shaped collaborator outputs a full output is produced without error
at this layer. -/
theorem c8_masks_optional
    (m m2 : ProteusFeatureEmbedder) (mi : InputFeatureEmbedder)
    (nt ct ca cap cp nb nh : Nat) (dp : Scalar) (nq nk : Nat)
    (ws wc wr : Nat → Nat → Scalar)
    (E : Features → Option Tensor → AtomAttentionEncoderOutput)
    (R : Features → Option Tensor → Tensor)
    (f : Features) (bs n : Nat)
    (henc : m.input_feature_embedder.encoder f none
      = m2.input_feature_embedder.encoder f none)
    (hrpe : m.relative_pos_encoder f none = m2.relative_pos_encoder f none)
    (hls : m.linear_s_init = m2.linear_s_init)
    (hlc : m.linear_z_col = m2.linear_z_col)
    (hlr : m.linear_z_row = m2.linear_z_row)
    (hshape : ((E f none).token_single).shape = [bs, n, ct])
    (hbias : (R f none).shape = [bs, n, n, cp]) :
    m.forward f = m.forward f none none
    ∧ mi.forward f = mi.forward f none
    ∧ m.forward f = m2.forward f
    ∧ isOkF ((ProteusFeatureEmbedder.init nt ct ca cap cp nb nh dp nq nk
        ws wc wr E R).forward f) = true := by
  refine ⟨rfl, rfl, ?_, ?_⟩
  · simp only [ProteusFeatureEmbedder.forward, InputFeatureEmbedder.forward,
      henc, hrpe, hls, hlc, hlr]
  · have htok := tensor_eta ((E f none).token_single) [bs, n, ct] hshape
    have hrpe2 := tensor_eta (R f none) [bs, n, n, cp] hbias
    have hfe := forward_eq
      (ProteusFeatureEmbedder.init nt ct ca cap cp nb nh dp nq nk ws wc wr E R)
      f none none bs n ct cp ((E f none).token_single).data ((R f none)).data
      ws wc wr rfl rfl rfl htok hrpe2
    rw [hfe]
    rfl

/-- C8 witness: the optional-mask behaviour instantiated on concrete
embedders. -/
theorem c8_masks_optional_witness :
    embW.forward [] = embW.forward [] none none
    ∧ ifeW.forward [] = ifeW.forward [] none
    ∧ embW.forward [] = embW.forward []
    ∧ isOkF (embW.forward []) = true :=
  c8_masks_optional embW embW ifeW 2 1 1 1 1 1 1 0 1 1 wOne wOne wOne
    encW rpeW [] 1 2 rfl rfl rfl rfl rfl rfl rfl

/-- C9: the `s_inputs` field of the `ProteusFeatures` result is exactly the
output of the inner atom attention encoder on the same features and atom
mask (the identical tensor), and both `s_trunk` and `z_trunk` are computed
from that same tensor: `s_trunk` is `linear_s_init` applied to `s_inputs`,
and `z_trunk` is the outer sum of the two pair projections of `s_inputs`
plus the relative-position bias. -/
theorem c9_s_inputs_identity
    (nt ct ca cap cp nb nh : Nat) (dp : Scalar) (nq nk : Nat)
    (ws wc wr : Nat → Nat → Scalar)
    (E : Features → Option Tensor → AtomAttentionEncoderOutput)
    (R : Features → Option Tensor → Tensor)
    (f : Features) (am tm : Option Tensor) (bs n : Nat)
    (hshape : ((E f am).token_single).shape = [bs, n, ct])
    (hbias : (R f tm).shape = [bs, n, n, cp]) :
    isOkF ((ProteusFeatureEmbedder.init nt ct ca cap cp nb nh dp nq nk
        ws wc wr E R).forward f am tm) = true
    ∧ sInputsOf ((ProteusFeatureEmbedder.init nt ct ca cap cp nb nh dp nq nk
          ws wc wr E R).forward f am tm)
        = (E f am).token_single
    ∧ (ProteusFeatureEmbedder.init nt ct ca cap cp nb nh dp nq nk
          ws wc wr E R).linear_s_init.apply
        (sInputsOf ((ProteusFeatureEmbedder.init nt ct ca cap cp nb nh dp nq nk
          ws wc wr E R).forward f am tm))
        = .ok (sTrunkOf ((ProteusFeatureEmbedder.init nt ct ca cap cp nb nh dp nq nk
          ws wc wr E R).forward f am tm))
    ∧ ∃ zc zr zs,
        (ProteusFeatureEmbedder.init nt ct ca cap cp nb nh dp nq nk
            ws wc wr E R).linear_z_col.apply
          ((sInputsOf ((ProteusFeatureEmbedder.init nt ct ca cap cp nb nh dp nq nk
            ws wc wr E R).forward f am tm)).unsqueeze 2) = .ok zc
        ∧ (ProteusFeatureEmbedder.init nt ct ca cap cp nb nh dp nq nk
            ws wc wr E R).linear_z_row.apply
          ((sInputsOf ((ProteusFeatureEmbedder.init nt ct ca cap cp nb nh dp nq nk
            ws wc wr E R).forward f am tm)).unsqueeze 1) = .ok zr
        ∧ zc.add zr = .ok zs
        ∧ zs.add (R f tm)
          = .ok (zTrunkOf ((ProteusFeatureEmbedder.init nt ct ca cap cp nb nh dp nq nk
            ws wc wr E R).forward f am tm)) := by
  have htok := tensor_eta ((E f am).token_single) [bs, n, ct] hshape
  have hrpe := tensor_eta (R f tm) [bs, n, n, cp] hbias
  have hfe := forward_eq
    (ProteusFeatureEmbedder.init nt ct ca cap cp nb nh dp nq nk ws wc wr E R)
    f am tm bs n ct cp ((E f am).token_single).data ((R f tm)).data
    ws wc wr rfl rfl rfl htok hrpe
  rw [hfe]
  refine ⟨rfl, htok.symm, ?_, ?_⟩
  · simp only [sInputsOf, sTrunkOf]
    exact linear_apply_none ct ct ws _ (by rfl)
  · refine ⟨linOut wc ct cp (Tensor.unsqueeze ⟨[bs, n, ct],
        ((E f am).token_single).data⟩ 2),
      linOut wr ct cp (Tensor.unsqueeze ⟨[bs, n, ct],
        ((E f am).token_single).data⟩ 1),
      addOut (linOut wc ct cp (Tensor.unsqueeze ⟨[bs, n, ct],
          ((E f am).token_single).data⟩ 2))
        (linOut wr ct cp (Tensor.unsqueeze ⟨[bs, n, ct],
          ((E f am).token_single).data⟩ 1))
        [bs, n, n, cp], ?_, ?_, ?_, ?_⟩
    · simp only [sInputsOf]
      exact linear_apply_none ct cp wc _ (by rfl)
    · simp only [sInputsOf]
      exact linear_apply_none ct cp wr _ (by rfl)
    · exact add_eq _ _ _ (bcastShapeRev_pair bs n cp)
    · rw [hrpe]
      simp only [zTrunkOf]
      exact add_eq _ _ _ (bcastShapeRev_same [cp, n, n, bs])

/-- C9 witness: the `s_inputs` identity instantiated on a concrete embedder
with two tokens, one channel and batch size one. -/
theorem c9_s_inputs_identity_witness :
    isOkF (embW.forward [] none none) = true
    ∧ sInputsOf (embW.forward [] none none) = (encW [] none).token_single
    ∧ embW.linear_s_init.apply (sInputsOf (embW.forward [] none none))
        = .ok (sTrunkOf (embW.forward [] none none))
    ∧ ∃ zc zr zs,
        embW.linear_z_col.apply
          ((sInputsOf (embW.forward [] none none)).unsqueeze 2) = .ok zc
        ∧ embW.linear_z_row.apply
          ((sInputsOf (embW.forward [] none none)).unsqueeze 1) = .ok zr
        ∧ zc.add zr = .ok zs
        ∧ zs.add (rpeW [] none) = .ok (zTrunkOf (embW.forward [] none none)) :=
  c9_s_inputs_identity 2 1 1 1 1 1 1 0 1 1 wOne wOne wOne encW rpeW
    [] none none 1 2 rfl rfl

/-- C10: the `z_trunk` tensor returned by `ProteusFeatureEmbedder.forward`
has last-dimension width `c_trunk_pair`, not `c_token` (whenever the two
widths differ), because both pair projections map `c_token` to
`c_trunk_pair` — despite the `ProteusFeatures` annotation comment stating
`(bs, n_tokens, n_tokens, c_token)`. -/
theorem c10_z_trunk_channel_width
    (nt ct ca cap cp nb nh : Nat) (dp : Scalar) (nq nk : Nat)
    (ws wc wr : Nat → Nat → Scalar)
    (E : Features → Option Tensor → AtomAttentionEncoderOutput)
    (R : Features → Option Tensor → Tensor)
    (f : Features) (am tm : Option Tensor) (bs n : Nat)
    (hshape : ((E f am).token_single).shape = [bs, n, ct])
    (hbias : (R f tm).shape = [bs, n, n, cp]) :
    isOkF ((ProteusFeatureEmbedder.init nt ct ca cap cp nb nh dp nq nk
        ws wc wr E R).forward f am tm) = true
    ∧ (ProteusFeatureEmbedder.init nt ct ca cap cp nb nh dp nq nk
        ws wc wr E R).linear_z_col.out_features = cp
    ∧ (ProteusFeatureEmbedder.init nt ct ca cap cp nb nh dp nq nk
        ws wc wr E R).linear_z_row.out_features = cp
    ∧ (zTrunkOf ((ProteusFeatureEmbedder.init nt ct ca cap cp nb nh dp nq nk
        ws wc wr E R).forward f am tm)).shape = [bs, n, n, cp]
    ∧ (cp ≠ ct →
        (zTrunkOf ((ProteusFeatureEmbedder.init nt ct ca cap cp nb nh dp nq nk
          ws wc wr E R).forward f am tm)).shape ≠ [bs, n, n, ct]) := by
  have htok := tensor_eta ((E f am).token_single) [bs, n, ct] hshape
  have hrpe := tensor_eta (R f tm) [bs, n, n, cp] hbias
  have hfe := forward_eq
    (ProteusFeatureEmbedder.init nt ct ca cap cp nb nh dp nq nk ws wc wr E R)
    f am tm bs n ct cp ((E f am).token_single).data ((R f tm)).data
    ws wc wr rfl rfl rfl htok hrpe
  rw [hfe]
  refine ⟨rfl, rfl, rfl, rfl, ?_⟩
  intro hne hcontra
  simp only [zTrunkOf, zPair, addOut] at hcontra
  simp at hcontra
  exact hne hcontra

/-- C10 witness: on a concrete embedder with `c_token = 1` and
`c_trunk_pair = 2`, the pair-trunk tensor has last dimension 2. -/
theorem c10_z_trunk_channel_width_witness :
    isOkF (embWideW.forward [] none none) = true
    ∧ embWideW.linear_z_col.out_features = 2
    ∧ embWideW.linear_z_row.out_features = 2
    ∧ (zTrunkOf (embWideW.forward [] none none)).shape = [1, 2, 2, 2]
    ∧ ((2 : Nat) ≠ 1 →
        (zTrunkOf (embWideW.forward [] none none)).shape ≠ [1, 2, 2, 1]) :=
  c10_z_trunk_channel_width 2 1 1 1 2 1 1 0 1 1 wOne wOne wOne encW rpeWideW
    [] none none 1 2 rfl rfl

end AF3
